import Mathlib

/-!
# Pin / channel connection logic of `view/svg/pin.go`

A shallow embedding of `Pin.connectTo`, `Pin.disconnect` and `Pin.drag`.

Go pointers become references (natural numbers) into a heap held by the
diagram: `*Pin` is a `PinRef`, `*Channel` a `ChanRef`, `*Node` a `NodeRef`.
Every reference denotes an object (Go has no dangling pointers), so the heaps
are total functions.  The Go maps used as sets (`Channel.Pins`,
`graph.Channels`) are finite sets.  All pins live in one diagram, so
`p.node.d.graph.Channels` is one registry.  The calls on `js.Object`s,
`reposition`, `setColour`, `commit`, `setError` and `clearError` only touch
the rendering and the error notice and are left out.
-/

namespace ShenzhenGo

abbrev PinRef := Nat
abbrev ChanRef := Nat
abbrev NodeRef := Nat

/-- The fields of `Pin` that the connection logic reads or writes.  The Go
field `Type` is spelled `typ`. -/
structure Pin where
  Name : String
  typ : String
  input : Bool
  node : NodeRef
  ch : Option ChanRef
deriving DecidableEq

/-- The fields of `Channel` used by `pin.go`: `q.Type` and `q.Pins`. -/
structure Channel where
  typ : String
  Pins : Finset PinRef
deriving DecidableEq

/-- The diagram: the pin and channel objects, the registry `graph.Channels`,
and the next reference the allocator hands out. -/
structure Diagram where
  pins : PinRef → Pin
  chans : ChanRef → Channel
  Channels : Finset ChanRef
  next : ChanRef

/-- The interface `Point`: the dynamic type is `*Pin` or `*Channel`. -/
inductive Point where
  | pin (q : PinRef)
  | chan (q : ChanRef)
deriving DecidableEq

/-- The four errors `connectTo` builds. -/
inductive ConnError where
  | mismatchingTypes (pT qT : String)
  | sameDirection
  | sameGoroutine
  | oneInputOneOutput
deriving DecidableEq

/-- The text of each error. -/
def ConnError.msg : ConnError → String
  | .mismatchingTypes pT qT => "mismatching types [" ++ pT ++ " != " ++ qT ++ "]"
  | .sameDirection => "both pins have the same direction"
  | .sameGoroutine => "both pins are on the same goroutine"
  | .oneInputOneOutput => "must connect at least one input and one output"

/-- Assignment `p.ch = v`. -/
def Diagram.setCh (s : Diagram) (p : PinRef) (v : Option ChanRef) : Diagram :=
  { s with pins := Function.update s.pins p { s.pins p with ch := v } }

/-- Assignment to `c.Pins`. -/
def Diagram.setPins (s : Diagram) (c : ChanRef) (ps : Finset PinRef) : Diagram :=
  { s with chans := Function.update s.chans c { s.chans c with Pins := ps } }

/-- The loop `for q := range ps { q.ch = nil }`. -/
def Diagram.clearCh (s : Diagram) (ps : Finset PinRef) : Diagram :=
  { s with pins := fun r => if r ∈ ps then { s.pins r with ch := none } else s.pins r }

/-- `Pin.disconnect` (pin.go 102-117). -/
def disconnect (s : Diagram) (p : PinRef) : Diagram :=
  match (s.pins p).ch with
  | none => s
  | some c =>
    let s1 := s.setPins c ((s.chans c).Pins.erase p)
    let s2 :=
      if (s1.chans c).Pins.card < 2 then
        { s1.clearCh (s1.chans c).Pins with Channels := s1.Channels.erase c }
      else s1
    s2.setCh p none

/-- Modelled from the spec: `newChannel` is not part of the sources.  The spec
(4.2 step 3) has it create a channel "containing exactly {self, target}"; its
type is the common type of the two pins (invariant I2). -/
def newChannel (s : Diagram) (p q : PinRef) : Channel :=
  { typ := (s.pins p).typ, Pins := {p, q} }

/-- The opening guard of both branches of `connectTo` (pin.go 50-52 and
77-79): `if p.ch != nil && p.ch != t { p.disconnect() }`. -/
def detachUnless (s : Diagram) (p : PinRef) (t : Option ChanRef) : Diagram :=
  if (s.pins p).ch ≠ none ∧ (s.pins p).ch ≠ t then disconnect s p else s

/-- The `case *Channel` branch of `Pin.connectTo` (pin.go 76-98). -/
def connectToChannel (s : Diagram) (p : PinRef) (q : ChanRef) : Diagram × Option ConnError :=
  let s1 := detachUnless s p (some q)
  if (s1.chans q).typ ≠ (s1.pins p).typ then
    (s1, some (.mismatchingTypes (s1.pins p).typ (s1.chans q).typ))
  else
    let same := decide (∀ r ∈ (s1.chans q).Pins, (s1.pins r).input = (s1.pins p).input)
    if same then (s1, some .oneInputOneOutput)
    else ((s1.setCh p (some q)).setPins q (insert p (s1.chans q).Pins), none)

/-- Lines 70-73 of `connectTo`: `ch := newChannel(p.node.d, p, q)` on a newly
allocated reference, `p.ch, q.ch = ch, ch`, and
`p.node.d.graph.Channels[ch] = struct{}{}`. -/
def attachNew (s : Diagram) (p q : PinRef) : Diagram :=
  let ch := s.next
  let s2 : Diagram :=
    { s with chans := Function.update s.chans ch (newChannel s p q), next := ch + 1 }
  let s3 := (s2.setCh p (some ch)).setCh q (some ch)
  { s3 with Channels := insert ch s3.Channels }

/-- The `case *Pin` branch of `Pin.connectTo` (pin.go 49-74). -/
def connectToPin (s : Diagram) (p q : PinRef) : Diagram × Option ConnError :=
  let s1 := detachUnless s p (s.pins q).ch
  if (s1.pins q).typ ≠ (s1.pins p).typ then
    (s1, some (.mismatchingTypes (s1.pins p).typ (s1.pins q).typ))
  else
    match (s1.pins q).ch with
    | some c => connectToChannel s1 p c
    | none =>
      if (s1.pins p).input = (s1.pins q).input then (s1, some .sameDirection)
      else if (s1.pins p).node = (s1.pins q).node then (s1, some .sameGoroutine)
      else (attachNew s1 p q, none)

/-- `Pin.connectTo` (pin.go 47-100): the resulting diagram and the returned
error (`none` for `nil`). -/
def connectTo (s : Diagram) (p : PinRef) : Point → Diagram × Option ConnError
  | .pin q => connectToPin s p q
  | .chan q => connectToChannel s p q

/-- The closure `noSnap` of `Pin.drag` (pin.go 177-187). -/
def noSnap (s : Diagram) (p : PinRef) : Diagram :=
  if (s.pins p).ch ≠ none then disconnect s p else s

/-- `Pin.drag` (pin.go 167-214), given the result `(d, q)` of
`graph.nearestPoint` and the constant `snapQuad`, both defined outside
`pin.go`; `q` is a pin or a channel.  Squared distances are rationals: the
only operation on them is the comparison `d >= snapQuad`. -/
def drag (s : Diagram) (p : PinRef) (d snapQuad : ℚ) (q : Point) : Diagram :=
  if q = .pin p ∨ d ≥ snapQuad then noSnap s p
  else
    match connectTo s p q with
    | (s1, some _) => noSnap s1 p
    | (s1, none) => s1

/-- The channel a point stands for: `q.ch` for a pin, `q` for a channel. -/
def channelOf (s : Diagram) : Point → Option ChanRef
  | .pin q => (s.pins q).ch
  | .chan q => some q

/-- A call of one of the two exported operations. -/
inductive Call where
  | connectTo (p : PinRef) (q : Point)
  | disconnect (p : PinRef)
deriving DecidableEq

/-- Run one call, dropping the returned error. -/
def Call.run (s : Diagram) : Call → Diagram
  | .connectTo p q => (ShenzhenGo.connectTo s p q).1
  | .disconnect p => ShenzhenGo.disconnect s p

/-- Run a sequence of calls, left to right. -/
def runCalls (s : Diagram) (cs : List Call) : Diagram :=
  cs.foldl Call.run s

/-- A graph with no channels: the registry is empty and no pin is attached. -/
def NoChannels (s : Diagram) : Prop :=
  s.Channels = ∅ ∧ ∀ p, (s.pins p).ch = none

/-- Allocator discipline: every channel reference in use lies below `next`,
so the reference handed out next is held by nothing. -/
def Allocated (s : Diagram) : Prop :=
  (∀ c ∈ s.Channels, c < s.next) ∧ ∀ r c, (s.pins r).ch = some c → c < s.next

/-- The states the program gets to from `s0`: `connectTo` on a pin or on a
channel of the registry, and `disconnect`, in any order. -/
inductive Reachable (s0 : Diagram) : Diagram → Prop where
  | start : Reachable s0 s0
  | connectPin {s : Diagram} (p q : PinRef) :
      Reachable s0 s → Reachable s0 (connectTo s p (.pin q)).1
  | connectChan {s : Diagram} (p : PinRef) (c : ChanRef) :
      Reachable s0 s → c ∈ s.Channels → Reachable s0 (connectTo s p (.chan c)).1
  | disconnect {s : Diagram} (p : PinRef) :
      Reachable s0 s → Reachable s0 (ShenzhenGo.disconnect s p)

/-- The consistency of pins, channels and registry that the operations keep. -/
structure WF (s : Diagram) : Prop where
  reg_lt : ∀ c ∈ s.Channels, c < s.next
  attached_reg : ∀ r c, (s.pins r).ch = some c → c ∈ s.Channels
  member_attached : ∀ c ∈ s.Channels, ∀ r ∈ (s.chans c).Pins, (s.pins r).ch = some c
  attached_member : ∀ r c, (s.pins r).ch = some c → r ∈ (s.chans c).Pins
  two_pins : ∀ c ∈ s.Channels, 2 ≤ (s.chans c).Pins.card

/-- A rejected `connectTo` from state `s` to state `s1` left the target `t`
alone: a target pin is as it was, and the target channel (the channel of a
target pin, if it has one) has its fields and its place in the registry as
before. -/
def Untouched (s s1 : Diagram) : Point → Prop
  | .pin q => s1.pins q = s.pins q ∧
      ∀ c, (s.pins q).ch = some c → s1.chans c = s.chans c ∧ (c ∈ s1.Channels ↔ c ∈ s.Channels)
  | .chan c => s1.chans c = s.chans c ∧ (c ∈ s1.Channels ↔ c ∈ s.Channels)

/-- The pins of the scenario of the spec (section 8), plus one: pin 0 is A (an
"int" output of node 1), pin 1 is B (an "int" input of node 2), pin 2 is D (an
"int" output of node 3), pin 3 is E (a "string" input of node 4), pin 4 is F
(an "int" input of node 1, the node of A).  Every other pin is an "int" input
of node 0. -/
def demoPin (r : PinRef) : Pin :=
  match r with
  | 0 => { Name := "A", typ := "int", input := false, node := 1, ch := none }
  | 1 => { Name := "B", typ := "int", input := true, node := 2, ch := none }
  | 2 => { Name := "D", typ := "int", input := false, node := 3, ch := none }
  | 3 => { Name := "E", typ := "string", input := true, node := 4, ch := none }
  | 4 => { Name := "F", typ := "int", input := true, node := 1, ch := none }
  | _ => { Name := "", typ := "int", input := true, node := 0, ch := none }

/-- The example diagram: the pins of `demoPin`, nothing connected. -/
def demo : Diagram where
  pins := demoPin
  chans := fun _ => { typ := "", Pins := ∅ }
  Channels := ∅
  next := 0

/-- The example after `A.connectTo(B)`: one channel, number 0, joining A and B. -/
def demoAB : Diagram := (connectTo demo 0 (.pin 1)).1

/-- The example after `A.connectTo(B)` and `D.connectTo(B)`: channel 0 joins
A, B and D. -/
def demoABD : Diagram := (connectTo demoAB 2 (.pin 1)).1

/-! ## What `disconnect` leaves alone -/

/-- Only the field `ch` of a pin is ever written by `disconnect`. -/
theorem disconnect_pins_eq (s : Diagram) (p r : PinRef) :
    (disconnect s p).pins r = { s.pins r with ch := ((disconnect s p).pins r).ch } := by
  unfold disconnect
  cases h : (s.pins p).ch with
  | none => rfl
  | some c =>
    simp only [Diagram.setCh, Diagram.setPins, Diagram.clearCh, Function.update_apply]
    by_cases h1 : ((s.chans c).Pins.erase p).card < 2 <;> by_cases h2 : r = p <;>
      by_cases h3 : r ∈ (s.chans c).Pins <;> simp [h1, h2, h3]

theorem disconnect_typ (s : Diagram) (p r : PinRef) :
    ((disconnect s p).pins r).typ = (s.pins r).typ := by
  rw [disconnect_pins_eq]

theorem disconnect_input (s : Diagram) (p r : PinRef) :
    ((disconnect s p).pins r).input = (s.pins r).input := by
  rw [disconnect_pins_eq]

theorem disconnect_node (s : Diagram) (p r : PinRef) :
    ((disconnect s p).pins r).node = (s.pins r).node := by
  rw [disconnect_pins_eq]

theorem disconnect_chan_typ (s : Diagram) (p : PinRef) (c : ChanRef) :
    ((disconnect s p).chans c).typ = (s.chans c).typ := by
  unfold disconnect
  cases h : (s.pins p).ch with
  | none => rfl
  | some c0 =>
    simp only [Diagram.setCh, Diagram.setPins, Diagram.clearCh, Function.update_apply]
    by_cases h1 : ((s.chans c0).Pins.erase p).card < 2 <;> by_cases h2 : c = c0 <;>
      simp [h1, h2]

theorem disconnect_next (s : Diagram) (p : PinRef) : (disconnect s p).next = s.next := by
  unfold disconnect
  cases h : (s.pins p).ch with
  | none => rfl
  | some c0 =>
    simp only [Diagram.setCh, Diagram.setPins, Diagram.clearCh]
    split_ifs <;> rfl

theorem disconnect_ch_self (s : Diagram) (p : PinRef) : ((disconnect s p).pins p).ch = none := by
  unfold disconnect
  cases h : (s.pins p).ch with
  | none => simpa using h
  | some c0 => simp [Diagram.setCh]

theorem disconnect_chans_of_ne (s : Diagram) (p : PinRef) (c : ChanRef)
    (h : (s.pins p).ch ≠ some c) : (disconnect s p).chans c = s.chans c := by
  unfold disconnect
  cases h0 : (s.pins p).ch with
  | none => rfl
  | some c0 =>
    have hc : c ≠ c0 := fun e => h (by rw [h0, e])
    simp only [Diagram.setCh, Diagram.setPins, Diagram.clearCh]
    split_ifs <;> simp [Function.update_apply, hc]

theorem disconnect_mem_Channels_of_ne (s : Diagram) (p : PinRef) (c : ChanRef)
    (h : (s.pins p).ch ≠ some c) : c ∈ (disconnect s p).Channels ↔ c ∈ s.Channels := by
  unfold disconnect
  cases h0 : (s.pins p).ch with
  | none => rfl
  | some c0 =>
    have hc : c ≠ c0 := fun e => h (by rw [h0, e])
    simp only [Diagram.setCh, Diagram.setPins, Diagram.clearCh]
    split_ifs <;> simp [hc]

/-- The field `ch` of every pin after `disconnect` of an attached pin. -/
theorem disconnect_pins_ch (s : Diagram) (p : PinRef) (c0 : ChanRef)
    (h : (s.pins p).ch = some c0) (r : PinRef) :
    ((disconnect s p).pins r).ch =
      if r = p then none
      else if ((s.chans c0).Pins.erase p).card < 2 ∧ r ∈ (s.chans c0).Pins then none
      else (s.pins r).ch := by
  unfold disconnect
  simp only [h, Diagram.setCh, Diagram.setPins, Diagram.clearCh, Function.update_apply]
  by_cases h1 : ((s.chans c0).Pins.erase p).card < 2 <;> by_cases h2 : r = p <;>
    by_cases h3 : r ∈ (s.chans c0).Pins <;> simp [h1, h2, h3]

/-- The pin set of every channel after `disconnect` of an attached pin. -/
theorem disconnect_chans_Pins (s : Diagram) (p : PinRef) (c0 : ChanRef)
    (h : (s.pins p).ch = some c0) (c : ChanRef) :
    ((disconnect s p).chans c).Pins =
      if c = c0 then (s.chans c0).Pins.erase p else (s.chans c).Pins := by
  unfold disconnect
  simp only [h, Diagram.setCh, Diagram.setPins, Diagram.clearCh, Function.update_apply]
  by_cases h1 : ((s.chans c0).Pins.erase p).card < 2 <;> by_cases h2 : c = c0 <;>
    simp [h1, h2]

/-- The registry after `disconnect` of an attached pin. -/
theorem disconnect_Channels (s : Diagram) (p : PinRef) (c0 : ChanRef)
    (h : (s.pins p).ch = some c0) :
    (disconnect s p).Channels =
      if ((s.chans c0).Pins.erase p).card < 2 then s.Channels.erase c0 else s.Channels := by
  unfold disconnect
  simp only [h, Diagram.setCh, Diagram.setPins, Diagram.clearCh, Function.update_apply]
  by_cases h1 : ((s.chans c0).Pins.erase p).card < 2 <;> simp [h1]

theorem disconnect_of_unattached (s : Diagram) (p : PinRef) (h : (s.pins p).ch = none) :
    disconnect s p = s := by
  unfold disconnect
  simp [h]

theorem detachUnless_typ (s : Diagram) (p : PinRef) (t : Option ChanRef) (r : PinRef) :
    ((detachUnless s p t).pins r).typ = (s.pins r).typ := by
  unfold detachUnless; split_ifs
  · exact disconnect_typ s p r
  · rfl

theorem detachUnless_input (s : Diagram) (p : PinRef) (t : Option ChanRef) (r : PinRef) :
    ((detachUnless s p t).pins r).input = (s.pins r).input := by
  unfold detachUnless; split_ifs
  · exact disconnect_input s p r
  · rfl

theorem detachUnless_node (s : Diagram) (p : PinRef) (t : Option ChanRef) (r : PinRef) :
    ((detachUnless s p t).pins r).node = (s.pins r).node := by
  unfold detachUnless; split_ifs
  · exact disconnect_node s p r
  · rfl

theorem detachUnless_chan_typ (s : Diagram) (p : PinRef) (t : Option ChanRef) (c : ChanRef) :
    ((detachUnless s p t).chans c).typ = (s.chans c).typ := by
  unfold detachUnless; split_ifs
  · exact disconnect_chan_typ s p c
  · rfl

theorem detachUnless_next (s : Diagram) (p : PinRef) (t : Option ChanRef) :
    (detachUnless s p t).next = s.next := by
  unfold detachUnless; split_ifs
  · exact disconnect_next s p
  · rfl

/-- The guard never touches the channel it is told to spare. -/
theorem detachUnless_chans_target (s : Diagram) (p : PinRef) (c : ChanRef) :
    (detachUnless s p (some c)).chans c = s.chans c := by
  unfold detachUnless; split_ifs with h
  · exact disconnect_chans_of_ne s p c h.2
  · rfl

theorem detachUnless_mem_Channels_target (s : Diagram) (p : PinRef) (c : ChanRef) :
    c ∈ (detachUnless s p (some c)).Channels ↔ c ∈ s.Channels := by
  unfold detachUnless; split_ifs with h
  · exact disconnect_mem_Channels_of_ne s p c h.2
  · rfl

/-- After the guard, `p` is unattached or was attached to `t` all along. -/
theorem detachUnless_ch_self (s : Diagram) (p : PinRef) (t : Option ChanRef) :
    ((detachUnless s p t).pins p).ch = none ∨
      (detachUnless s p t = s ∧ (s.pins p).ch = t) := by
  unfold detachUnless; split_ifs with h
  · exact Or.inl (disconnect_ch_self s p)
  · by_cases h0 : (s.pins p).ch = none
    · exact Or.inl h0
    · right
      refine ⟨rfl, ?_⟩
      by_contra h1
      exact h ⟨h0, h1⟩

theorem detachUnless_of_unattached (s : Diagram) (p : PinRef) (t : Option ChanRef)
    (h : (s.pins p).ch = none) : detachUnless s p t = s := by
  simp [detachUnless, h]

theorem detachUnless_of_attached (s : Diagram) (p : PinRef) (t : Option ChanRef)
    (h : (s.pins p).ch = t) : detachUnless s p t = s := by
  simp [detachUnless, h]

theorem setCh_self (s : Diagram) (p : PinRef) (v : Option ChanRef)
    (h : (s.pins p).ch = v) : s.setCh p v = s := by
  have e : ({ s.pins p with ch := v } : Pin) = s.pins p := by rw [← h]
  simp [Diagram.setCh, e]

theorem setPins_self (s : Diagram) (c : ChanRef) (ps : Finset PinRef)
    (h : (s.chans c).Pins = ps) : s.setPins c ps = s := by
  have e : ({ s.chans c with Pins := ps } : Channel) = s.chans c := by rw [← h]
  simp [Diagram.setPins, e]

theorem noSnap_ch_self (s : Diagram) (p : PinRef) : ((noSnap s p).pins p).ch = none := by
  unfold noSnap; split_ifs with h
  · exact disconnect_ch_self s p
  · simpa using h

/-- What the channel branch does when it accepts. -/
theorem connectToChannel_ok (s : Diagram) (p : PinRef) (c : ChanRef)
    (h : (connectToChannel s p c).2 = none) :
    (connectToChannel s p c).1 =
      ((detachUnless s p (some c)).setCh p (some c)).setPins c
        (insert p ((detachUnless s p (some c)).chans c).Pins) := by
  unfold connectToChannel at h ⊢
  simp only at h ⊢
  split_ifs at h ⊢
  all_goals simp_all

/-- What the channel branch does when it rejects. -/
theorem connectToChannel_err (s : Diagram) (p : PinRef) (c : ChanRef)
    (h : (connectToChannel s p c).2 ≠ none) :
    (connectToChannel s p c).1 = detachUnless s p (some c) := by
  unfold connectToChannel at h ⊢
  simp only at h ⊢
  split_ifs at h ⊢ <;> simp_all

/-- The pin branch, case by case, in terms of the state `s1` after the guard. -/
theorem connectToPin_cases (s : Diagram) (p q : PinRef) :
    (((detachUnless s p (s.pins q).ch).pins q).typ ≠ ((detachUnless s p (s.pins q).ch).pins p).typ ∧
        connectToPin s p q = (detachUnless s p (s.pins q).ch,
          some (.mismatchingTypes ((detachUnless s p (s.pins q).ch).pins p).typ
            ((detachUnless s p (s.pins q).ch).pins q).typ))) ∨
      (∃ c, ((detachUnless s p (s.pins q).ch).pins q).ch = some c ∧
        connectToPin s p q = connectToChannel (detachUnless s p (s.pins q).ch) p c) ∨
      (((detachUnless s p (s.pins q).ch).pins q).ch = none ∧
        (connectToPin s p q = (detachUnless s p (s.pins q).ch, some .sameDirection) ∨
          connectToPin s p q = (detachUnless s p (s.pins q).ch, some .sameGoroutine) ∨
          (((detachUnless s p (s.pins q).ch).pins p).input ≠
              ((detachUnless s p (s.pins q).ch).pins q).input ∧
            connectToPin s p q = (attachNew (detachUnless s p (s.pins q).ch) p q, none)))) := by
  unfold connectToPin
  simp only
  by_cases h1 : ((detachUnless s p (s.pins q).ch).pins q).typ ≠
      ((detachUnless s p (s.pins q).ch).pins p).typ
  · left
    exact ⟨h1, by rw [if_pos h1]⟩
  · right
    rw [if_neg h1]
    cases hc : ((detachUnless s p (s.pins q).ch).pins q).ch with
    | some c => exact Or.inl ⟨c, rfl, rfl⟩
    | none =>
      right
      refine ⟨rfl, ?_⟩
      simp only
      by_cases h2 : ((detachUnless s p (s.pins q).ch).pins p).input =
          ((detachUnless s p (s.pins q).ch).pins q).input
      · left
        rw [if_pos h2]
      · right
        rw [if_neg h2]
        by_cases h3 : ((detachUnless s p (s.pins q).ch).pins p).node =
            ((detachUnless s p (s.pins q).ch).pins q).node
        · left
          rw [if_pos h3]
        · right
          rw [if_neg h3]
          exact ⟨h2, rfl⟩

/-- Inside the pin branch the guard of the channel branch never fires again. -/
theorem detachUnless_twice (s : Diagram) (p q : PinRef) (c : ChanRef)
    (hc : ((detachUnless s p (s.pins q).ch).pins q).ch = some c) :
    detachUnless (detachUnless s p (s.pins q).ch) p (some c) =
      detachUnless s p (s.pins q).ch := by
  rcases detachUnless_ch_self s p (s.pins q).ch with h2 | ⟨h2, h3⟩
  · exact detachUnless_of_unattached _ p _ h2
  · rw [h2] at hc ⊢
    exact detachUnless_of_attached s p _ (by rw [h3, hc])

/-! ## The consistency invariant -/

theorem wf_of_noChannels {s : Diagram} (h : NoChannels s) : WF s where
  reg_lt := fun c hc => by rw [h.1] at hc; exact absurd hc (Finset.not_mem_empty c)
  attached_reg := fun r c hrc => by rw [h.2 r] at hrc; exact absurd hrc (by simp)
  member_attached := fun c hc => by rw [h.1] at hc; exact absurd hc (Finset.not_mem_empty c)
  attached_member := fun r c hrc => by rw [h.2 r] at hrc; exact absurd hrc (by simp)
  two_pins := fun c hc => by rw [h.1] at hc; exact absurd hc (Finset.not_mem_empty c)

theorem wf_disconnect {s : Diagram} (h : WF s) (p : PinRef) : WF (disconnect s p) := by
  cases hp : (s.pins p).ch with
  | none =>
    rw [disconnect_of_unattached s p hp]
    exact h
  | some c0 =>
    have hc0 : c0 ∈ s.Channels := h.attached_reg p c0 hp
    have hpin := disconnect_pins_ch s p c0 hp
    have hch := disconnect_chans_Pins s p c0 hp
    have hreg := disconnect_Channels s p c0 hp
    have hnext := disconnect_next s p
    by_cases hd : ((s.chans c0).Pins.erase p).card < 2
    · simp only [hd, true_and, if_true] at hpin hreg
      have back : ∀ r c, ((disconnect s p).pins r).ch = some c →
          (s.pins r).ch = some c ∧ c ≠ c0 := by
        intro r c hrc
        rw [hpin] at hrc
        split_ifs at hrc with h1 h2
        refine ⟨hrc, ?_⟩
        rintro rfl
        exact h2 (h.attached_member r c hrc)
      have fwd : ∀ r c, (s.pins r).ch = some c → c ≠ c0 →
          ((disconnect s p).pins r).ch = some c := by
        intro r c hrc hne
        rw [hpin]
        have h1 : r ≠ p := by
          rintro rfl
          rw [hp] at hrc
          exact hne (Option.some.inj hrc).symm
        have h2 : r ∉ (s.chans c0).Pins := fun hm => by
          have := h.member_attached c0 hc0 r hm
          rw [hrc] at this
          exact hne (Option.some.inj this)
        simp [h1, h2, hrc]
      constructor
      · intro c hc
        rw [hreg] at hc
        rw [hnext]
        exact h.reg_lt c (Finset.mem_of_mem_erase hc)
      · intro r c hrc
        obtain ⟨h1, h2⟩ := back r c hrc
        rw [hreg]
        exact Finset.mem_erase.mpr ⟨h2, h.attached_reg r c h1⟩
      · intro c hc r hr
        rw [hreg] at hc
        obtain ⟨hne, hc⟩ := Finset.mem_erase.mp hc
        rw [hch, if_neg hne] at hr
        exact fwd r c (h.member_attached c hc r hr) hne
      · intro r c hrc
        obtain ⟨h1, h2⟩ := back r c hrc
        rw [hch, if_neg h2]
        exact h.attached_member r c h1
      · intro c hc
        rw [hreg] at hc
        obtain ⟨hne, hc⟩ := Finset.mem_erase.mp hc
        rw [hch, if_neg hne]
        exact h.two_pins c hc
    · simp only [hd, false_and, if_false] at hpin hreg
      have back : ∀ r c, ((disconnect s p).pins r).ch = some c →
          (s.pins r).ch = some c ∧ r ≠ p := by
        intro r c hrc
        rw [hpin] at hrc
        split_ifs at hrc with h1
        exact ⟨hrc, h1⟩
      constructor
      · intro c hc
        rw [hreg] at hc
        rw [hnext]
        exact h.reg_lt c hc
      · intro r c hrc
        rw [hreg]
        exact h.attached_reg r c (back r c hrc).1
      · intro c hc r hr
        rw [hreg] at hc
        rw [hch] at hr
        rw [hpin]
        by_cases hcc : c = c0
        · rw [if_pos hcc] at hr
          obtain ⟨hne, hm⟩ := Finset.mem_erase.mp hr
          rw [if_neg hne, hcc]
          exact h.member_attached c0 hc0 r hm
        · rw [if_neg hcc] at hr
          have hrc := h.member_attached c hc r hr
          have hne : r ≠ p := by
            rintro rfl
            rw [hp] at hrc
            exact hcc (Option.some.inj hrc).symm
          rw [if_neg hne]
          exact hrc
      · intro r c hrc
        obtain ⟨h1, h2⟩ := back r c hrc
        rw [hch]
        split_ifs with hcc
        · exact Finset.mem_erase.mpr ⟨h2, hcc ▸ h.attached_member r c h1⟩
        · exact h.attached_member r c h1
      · intro c hc
        rw [hreg] at hc
        rw [hch]
        split_ifs with hcc
        · exact not_lt.mp hd
        · exact h.two_pins c hc

theorem wf_detachUnless {s : Diagram} (h : WF s) (p : PinRef) (t : Option ChanRef) :
    WF (detachUnless s p t) := by
  unfold detachUnless
  split_ifs
  · exact wf_disconnect h p
  · exact h

/-- Lines 95-96, `p.ch = q` and `q.Pins[p] = struct{}{}`, keep the invariant
when `q` is registered and `p` is unattached or already on `q`. -/
theorem wf_attach {s : Diagram} (h : WF s) (p : PinRef) (c : ChanRef) (hc : c ∈ s.Channels)
    (hp : (s.pins p).ch = none ∨ (s.pins p).ch = some c) :
    WF ((s.setCh p (some c)).setPins c (insert p (s.chans c).Pins)) := by
  have hpin : ∀ r, (((s.setCh p (some c)).setPins c (insert p (s.chans c).Pins)).pins r).ch =
      if r = p then some c else (s.pins r).ch := by
    intro r
    by_cases hr : r = p <;> simp [Diagram.setCh, Diagram.setPins, Function.update_apply, hr]
  have hch : ∀ c1, (((s.setCh p (some c)).setPins c (insert p (s.chans c).Pins)).chans c1).Pins =
      if c1 = c then insert p (s.chans c).Pins else (s.chans c1).Pins := by
    intro c1
    by_cases hr : c1 = c <;> simp [Diagram.setCh, Diagram.setPins, Function.update_apply, hr]
  have hreg : ((s.setCh p (some c)).setPins c (insert p (s.chans c).Pins)).Channels =
      s.Channels := rfl
  have hnext : ((s.setCh p (some c)).setPins c (insert p (s.chans c).Pins)).next = s.next := rfl
  have hother : ∀ c1, c1 ≠ c → (s.pins p).ch ≠ some c1 := by
    intro c1 hne heq
    rcases hp with hp | hp
    · rw [hp] at heq
      exact absurd heq (by simp)
    · rw [hp] at heq
      exact hne (Option.some.inj heq).symm
  constructor
  · intro c1 hc1
    rw [hnext]
    exact h.reg_lt c1 (hreg ▸ hc1)
  · intro r c1 hrc
    rw [hreg]
    rw [hpin] at hrc
    split_ifs at hrc with hr
    · rw [← Option.some.inj hrc]
      exact hc
    · exact h.attached_reg r c1 hrc
  · intro c1 hc1 r hr
    rw [hreg] at hc1
    rw [hch] at hr
    rw [hpin]
    by_cases hcc : c1 = c
    · rw [if_pos hcc] at hr
      by_cases hrp : r = p
      · rw [if_pos hrp, hcc]
      · rw [if_neg hrp, hcc]
        exact h.member_attached c hc r (Finset.mem_of_mem_insert_of_ne hr hrp)
    · rw [if_neg hcc] at hr
      have hrc := h.member_attached c1 hc1 r hr
      have hrp : r ≠ p := by
        rintro rfl
        exact hother c1 hcc hrc
      rw [if_neg hrp]
      exact hrc
  · intro r c1 hrc
    rw [hpin] at hrc
    rw [hch]
    split_ifs at hrc with hr
    · rw [← Option.some.inj hrc, if_pos rfl, hr]
      exact Finset.mem_insert_self _ _
    · have hm := h.attached_member r c1 hrc
      split_ifs with hcc
      · exact Finset.mem_insert_of_mem (hcc ▸ hm)
      · exact hm
  · intro c1 hc1
    rw [hreg] at hc1
    rw [hch]
    split_ifs with hcc
    · exact le_trans (h.two_pins c hc) (Finset.card_le_card (Finset.subset_insert _ _))
    · exact h.two_pins c1 hc1

/-- Lines 70-73 keep the invariant when both pins are unattached and distinct. -/
theorem wf_attachNew {s : Diagram} (h : WF s) (p q : PinRef) (hpq : p ≠ q)
    (hp : (s.pins p).ch = none) (hq : (s.pins q).ch = none) : WF (attachNew s p q) := by
  have hpin : ∀ r, ((attachNew s p q).pins r).ch =
      if r = p ∨ r = q then some s.next else (s.pins r).ch := by
    intro r
    by_cases h1 : r = q <;> by_cases h2 : r = p <;>
      simp [attachNew, Diagram.setCh, Function.update_apply, h1, h2, hpq, Ne.symm hpq]
  have hch : ∀ c, ((attachNew s p q).chans c).Pins =
      if c = s.next then {p, q} else (s.chans c).Pins := by
    intro c
    by_cases h1 : c = s.next <;>
      simp [attachNew, Diagram.setCh, Function.update_apply, newChannel, h1]
  have hreg : (attachNew s p q).Channels = insert s.next s.Channels := by
    simp [attachNew, Diagram.setCh]
  have hnext : (attachNew s p q).next = s.next + 1 := by
    simp [attachNew, Diagram.setCh]
  have hold : ∀ c ∈ s.Channels, c ≠ s.next := fun c hc => ne_of_lt (h.reg_lt c hc)
  constructor
  · intro c hc
    rw [hreg] at hc
    rw [hnext]
    rcases Finset.mem_insert.mp hc with hc | hc
    · rw [hc]
      exact Nat.lt_succ_self _
    · exact Nat.lt_succ_of_lt (h.reg_lt c hc)
  · intro r c hrc
    rw [hpin] at hrc
    rw [hreg]
    split_ifs at hrc with hr
    · rw [← Option.some.inj hrc]
      exact Finset.mem_insert_self _ _
    · exact Finset.mem_insert_of_mem (h.attached_reg r c hrc)
  · intro c hc r hr
    rw [hreg] at hc
    rw [hch] at hr
    rw [hpin]
    by_cases hcc : c = s.next
    · rw [if_pos hcc] at hr
      have : r = p ∨ r = q := by simpa using hr
      rw [if_pos this, hcc]
    · rw [if_neg hcc] at hr
      have hc1 : c ∈ s.Channels := Finset.mem_of_mem_insert_of_ne hc hcc
      have hrc := h.member_attached c hc1 r hr
      have hne : ¬ (r = p ∨ r = q) := by
        rintro (rfl | rfl)
        · rw [hp] at hrc
          exact absurd hrc (by simp)
        · rw [hq] at hrc
          exact absurd hrc (by simp)
      rw [if_neg hne]
      exact hrc
  · intro r c hrc
    rw [hpin] at hrc
    rw [hch]
    split_ifs at hrc with hr
    · rw [← Option.some.inj hrc, if_pos rfl]
      simpa using hr
    · rw [if_neg (hold c (h.attached_reg r c hrc))]
      exact h.attached_member r c hrc
  · intro c hc
    rw [hreg] at hc
    rw [hch]
    split_ifs with hcc
    · rw [Finset.card_pair hpq]
    · exact h.two_pins c (Finset.mem_of_mem_insert_of_ne hc hcc)

/-- The channel branch keeps the invariant when its target is registered. -/
theorem wf_connectToChannel {s : Diagram} (h : WF s) (p : PinRef) (c : ChanRef)
    (hc : c ∈ s.Channels) : WF (connectToChannel s p c).1 := by
  have h1 : WF (detachUnless s p (some c)) := wf_detachUnless h p _
  cases he : (connectToChannel s p c).2 with
  | some e =>
    rw [connectToChannel_err s p c (by simp [he])]
    exact h1
  | none =>
    rw [connectToChannel_ok s p c he]
    refine wf_attach h1 p c ((detachUnless_mem_Channels_target s p c).mpr hc) ?_
    rcases detachUnless_ch_self s p (some c) with h2 | ⟨h2, h3⟩
    · exact Or.inl h2
    · rw [h2]
      exact Or.inr h3

/-- The pin branch keeps the invariant. -/
theorem wf_connectToPin {s : Diagram} (h : WF s) (p q : PinRef) :
    WF (connectToPin s p q).1 := by
  have h1 : WF (detachUnless s p (s.pins q).ch) := wf_detachUnless h p _
  rcases connectToPin_cases s p q with ⟨_, e⟩ | ⟨c, hc, e⟩ | ⟨hq, e | e | ⟨hi, e⟩⟩
  · rw [e]
    exact h1
  · rw [e]
    exact wf_connectToChannel h1 p c (h1.attached_reg q c hc)
  · rw [e]
    exact h1
  · rw [e]
    exact h1
  · rw [e]
    refine wf_attachNew h1 p q (fun hpq => hi (by rw [hpq])) ?_ hq
    rcases detachUnless_ch_self s p (s.pins q).ch with h2 | ⟨h2, h3⟩
    · exact h2
    · rw [h2] at hq ⊢
      rw [h3, hq]

/-- Every reachable state of a graph that started with no channels is
consistent. -/
theorem wf_of_reachable {s0 s : Diagram} (h0 : NoChannels s0) (hr : Reachable s0 s) : WF s := by
  induction hr with
  | start => exact wf_of_noChannels h0
  | connectPin p q _ ih => exact wf_connectToPin ih p q
  | connectChan p c _ hc ih => exact wf_connectToChannel ih p c hc
  | disconnect p _ ih => exact wf_disconnect ih p

theorem noChannels_demo : NoChannels demo := by
  refine ⟨rfl, fun p => ?_⟩
  show (demoPin p).ch = none
  unfold demoPin
  split <;> rfl

/-- On an error `connectTo` has done the guard and nothing else. -/
theorem connectTo_err (s : Diagram) (p : PinRef) (t : Point)
    (h : (connectTo s p t).2 ≠ none) :
    (connectTo s p t).1 = detachUnless s p (channelOf s t) := by
  cases t with
  | chan c => exact connectToChannel_err s p c h
  | pin q =>
    simp only [connectTo, channelOf] at h ⊢
    rcases connectToPin_cases s p q with ⟨_, e⟩ | ⟨c, hc, e⟩ | ⟨_, e | e | ⟨_, e⟩⟩
    · rw [e]
    · rw [e] at h ⊢
      rw [connectToChannel_err _ p c h, detachUnless_twice s p q c hc]
    · rw [e]
    · rw [e]
    · rw [e] at h
      exact absurd rfl h

/-- In a consistent state the guard leaves the target alone. -/
theorem untouched_detachUnless {s : Diagram} (h : WF s) (p : PinRef) (t : Point) :
    Untouched s (detachUnless s p (channelOf s t)) t := by
  cases t with
  | chan c =>
    exact ⟨detachUnless_chans_target s p c, detachUnless_mem_Channels_target s p c⟩
  | pin q =>
    simp only [channelOf, Untouched]
    unfold detachUnless
    split_ifs with hg
    · obtain ⟨h1, h2⟩ := hg
      obtain ⟨c0, hp⟩ := Option.ne_none_iff_exists'.mp h1
      have hqp : q ≠ p := by
        rintro rfl
        exact h2 rfl
      have hqm : q ∉ (s.chans c0).Pins := fun hm => by
        have := h.member_attached c0 (h.attached_reg p c0 hp) q hm
        exact h2 (by rw [hp, this])
      refine ⟨?_, fun c hc => ?_⟩
      · rw [disconnect_pins_eq, disconnect_pins_ch s p c0 hp q]
        simp [hqp, hqm]
      · have hne : (s.pins p).ch ≠ some c := fun e => h2 (by rw [e, hc])
        exact ⟨disconnect_chans_of_ne s p c hne, disconnect_mem_Channels_of_ne s p c hne⟩
    · exact ⟨rfl, fun c _ => ⟨rfl, Iff.rfl⟩⟩

/-! ## Claims -/

/-- C1: for pins `p` and `q` of different types, in any state whatever,
`p.connectTo(q)` returns the mismatching-types error (so never `nil`). -/
theorem connectTo_pin_type_mismatch (s : Diagram) (p q : PinRef)
    (h : (s.pins p).typ ≠ (s.pins q).typ) :
    (connectTo s p (.pin q)).2 = some (.mismatchingTypes (s.pins p).typ (s.pins q).typ) ∧
      (connectTo s p (.pin q)).2 ≠ none := by
  have key : (connectTo s p (.pin q)).2 =
      some (.mismatchingTypes (s.pins p).typ (s.pins q).typ) := by
    simp only [connectTo, connectToPin]
    rw [if_pos (by simpa [detachUnless_typ] using Ne.symm h)]
    simp [detachUnless_typ]
  exact ⟨key, by rw [key]; simp⟩

/-- C1 at the example: A, attached to B, is connected to E of type "string". -/
theorem connectTo_pin_type_mismatch_witness :
    (demoAB.pins 0).typ ≠ (demoAB.pins 3).typ ∧
      (connectTo demoAB 0 (.pin 3)).2 = some (.mismatchingTypes "int" "string") :=
  ⟨by decide, (connectTo_pin_type_mismatch demoAB 0 3 (by decide)).1⟩

/-- C2: for unattached pins `p`, `q` of equal type, `p.connectTo(q)` returns
`nil` exactly when the directions differ and the owning nodes differ, the
same-direction error when the directions agree, and otherwise the
same-goroutine error; on `nil` both pins are attached to the channel just
allocated, whose pin set is `{p, q}` and which is in the registry, and (in a
well-allocated heap) that channel was not registered nor held by any pin
before. -/
theorem connectTo_unattached_pins (s : Diagram) (p q : PinRef)
    (hp : (s.pins p).ch = none) (hq : (s.pins q).ch = none)
    (ht : (s.pins p).typ = (s.pins q).typ) :
    ((connectTo s p (.pin q)).2 = none ↔
        ((s.pins p).input ≠ (s.pins q).input ∧ (s.pins p).node ≠ (s.pins q).node)) ∧
      ((s.pins p).input = (s.pins q).input →
        (connectTo s p (.pin q)).2 = some .sameDirection) ∧
      ((s.pins p).input ≠ (s.pins q).input → (s.pins p).node = (s.pins q).node →
        (connectTo s p (.pin q)).2 = some .sameGoroutine) ∧
      ((connectTo s p (.pin q)).2 = none →
        (((connectTo s p (.pin q)).1.pins p).ch = some s.next ∧
          ((connectTo s p (.pin q)).1.pins q).ch = some s.next ∧
          ((connectTo s p (.pin q)).1.chans s.next).Pins = {p, q} ∧
          s.next ∈ (connectTo s p (.pin q)).1.Channels ∧
          (Allocated s → s.next ∉ s.Channels ∧ ∀ r, (s.pins r).ch ≠ some s.next))) := by
  have hd : ∀ t, detachUnless s p t = s := fun t => detachUnless_of_unattached s p t hp
  by_cases hi : (s.pins p).input = (s.pins q).input
  · have e : (connectTo s p (.pin q)).2 = some .sameDirection := by
      simp [connectTo, connectToPin, hd, ht, hq, hi]
    simp [e, hi]
  · by_cases hn : (s.pins p).node = (s.pins q).node
    · have e : (connectTo s p (.pin q)).2 = some .sameGoroutine := by
        simp [connectTo, connectToPin, hd, ht, hq, hi, hn]
      simp [e, hi, hn]
    · have e : (connectTo s p (.pin q)).2 = none := by
        simp [connectTo, connectToPin, hd, ht, hq, hi, hn]
      refine ⟨by simp [e, hi, hn], fun h => absurd h hi, fun _ h => absurd h hn, fun _ => ?_⟩
      refine ⟨?_, ?_, ?_, ?_, ?_⟩
      · have hpq : p ≠ q := fun h => hi (by rw [h])
        simp [connectTo, connectToPin, attachNew, hd, ht, hq, hi, hn, Diagram.setCh,
          Function.update_apply, hpq]
      · simp [connectTo, connectToPin, attachNew, hd, ht, hq, hi, hn, Diagram.setCh]
      · simp [connectTo, connectToPin, attachNew, hd, ht, hq, hi, hn, Diagram.setCh, newChannel]
      · simp [connectTo, connectToPin, attachNew, hd, ht, hq, hi, hn, Diagram.setCh]
      · rintro ⟨h1, h2⟩
        exact ⟨fun hm => absurd (h1 _ hm) (lt_irrefl _),
          fun r hr => absurd (h2 r _ hr) (lt_irrefl _)⟩

/-- C2 at the example: A (output of node 1) and B (input of node 2), both
unattached and of type "int". -/
theorem connectTo_unattached_pins_witness :
    (connectTo demo 0 (.pin 1)).2 = none ∧
      ((connectTo demo 0 (.pin 1)).1.chans 0).Pins = {0, 1} ∧
      0 ∈ (connectTo demo 0 (.pin 1)).1.Channels :=
  have h := connectTo_unattached_pins demo 0 1 (by decide) (by decide) (by decide)
  have hnil : (connectTo demo 0 (.pin 1)).2 = none := h.1.2 (by decide)
  ⟨hnil, (h.2.2.2 hnil).2.2.1, (h.2.2.2 hnil).2.2.2.1⟩

/-- C3: for a pin `p` and a channel `c` of the same type, `p.connectTo(c)`
returns the at-least-one-input-and-one-output error exactly when every pin of
`c.Pins` has the direction of `p`; otherwise it returns `nil`, `c.Pins` has
gained `p` and nothing else, `p.ch` is `c`, and `c` holds an input pin and an
output pin. -/
theorem connectTo_channel (s : Diagram) (p : PinRef) (c : ChanRef)
    (ht : (s.chans c).typ = (s.pins p).typ) :
    ((connectTo s p (.chan c)).2 = some .oneInputOneOutput ↔
        ∀ r ∈ (s.chans c).Pins, (s.pins r).input = (s.pins p).input) ∧
      ((¬ ∀ r ∈ (s.chans c).Pins, (s.pins r).input = (s.pins p).input) →
        ((connectTo s p (.chan c)).2 = none ∧
          ((connectTo s p (.chan c)).1.chans c).Pins = insert p (s.chans c).Pins ∧
          ((connectTo s p (.chan c)).1.pins p).ch = some c ∧
          (∃ r ∈ ((connectTo s p (.chan c)).1.chans c).Pins,
            ((connectTo s p (.chan c)).1.pins r).input = true) ∧
          (∃ r ∈ ((connectTo s p (.chan c)).1.chans c).Pins,
            ((connectTo s p (.chan c)).1.pins r).input = false))) := by
  have hc := detachUnless_chans_target s p c
  by_cases hs : ∀ r ∈ (s.chans c).Pins, (s.pins r).input = (s.pins p).input
  · have e : (connectTo s p (.chan c)).2 = some .oneInputOneOutput := by
      simp only [connectTo, connectToChannel, hc, detachUnless_typ, detachUnless_input]
      simp only [ht, ne_eq, not_true_eq_false, if_false, decide_eq_true_eq]
      rw [if_pos hs]
    exact ⟨⟨fun _ => hs, fun _ => e⟩, fun h => absurd hs h⟩
  · have e : connectTo s p (.chan c) =
        (((detachUnless s p (some c)).setCh p (some c)).setPins c (insert p (s.chans c).Pins),
          none) := by
      simp only [connectTo, connectToChannel, hc, detachUnless_typ, detachUnless_input]
      simp only [ht, ne_eq, not_true_eq_false, if_false, decide_eq_true_eq]
      rw [if_neg hs]
    rw [e]
    refine ⟨by simp [hs], fun _ => ⟨rfl, by simp [Diagram.setPins], by simp [Diagram.setPins, Diagram.setCh], ?_⟩⟩
    have hin : ∀ r, ((((detachUnless s p (some c)).setCh p (some c)).setPins c
        (insert p (s.chans c).Pins)).pins r).input = (s.pins r).input := by
      intro r
      by_cases hr : r = p <;>
        simp [Diagram.setPins, Diagram.setCh, Function.update_apply, hr, detachUnless_input]
    have hP : ((((detachUnless s p (some c)).setCh p (some c)).setPins c
        (insert p (s.chans c).Pins)).chans c).Pins = insert p (s.chans c).Pins := by
      simp [Diagram.setPins]
    simp only [hin, hP]
    push_neg at hs
    obtain ⟨r, hr, hne⟩ := hs
    cases hb : (s.pins p).input with
    | true =>
      refine ⟨⟨p, Finset.mem_insert_self _ _, hb⟩, ⟨r, Finset.mem_insert_of_mem hr, ?_⟩⟩
      rw [hb] at hne
      simpa using hne
    | false =>
      refine ⟨⟨r, Finset.mem_insert_of_mem hr, ?_⟩, ⟨p, Finset.mem_insert_self _ _, hb⟩⟩
      rw [hb] at hne
      simpa using hne

/-- C3 at the example: D (an output) joins channel 0, which holds A (an
output) and B (an input). -/
theorem connectTo_channel_witness :
    (connectTo demoAB 2 (.chan 0)).2 = none ∧
      ((connectTo demoAB 2 (.chan 0)).1.chans 0).Pins = insert 2 (demoAB.chans 0).Pins :=
  have h := (connectTo_channel demoAB 2 0 (by decide)).2 (by decide)
  ⟨h.1, h.2.1⟩

/-- C4: when `c.Pins` is two pins `{p, q}`, both attached to `c`, and `c` is
registered, then after `p.disconnect()` the channel `c` is off the registry
and `q.ch` and `p.ch` are both `nil`. -/
theorem disconnect_two_pin_channel (s : Diagram) (p q : PinRef) (c : ChanRef)
    (hpq : p ≠ q) (hP : (s.chans c).Pins = {p, q})
    (hp : (s.pins p).ch = some c) (hq : (s.pins q).ch = some c) (_hc : c ∈ s.Channels) :
    c ∉ (disconnect s p).Channels ∧ ((disconnect s p).pins q).ch = none ∧
      ((disconnect s p).pins p).ch = none := by
  have he : ({p, q} : Finset PinRef).erase p = {q} := by
    ext x
    simp only [Finset.mem_erase, Finset.mem_insert, Finset.mem_singleton]
    constructor
    · rintro ⟨h1, h2 | h2⟩
      · exact absurd h2 h1
      · exact h2
    · rintro rfl
      exact ⟨Ne.symm hpq, Or.inr rfl⟩
  refine ⟨?_, ?_, disconnect_ch_self s p⟩
  · unfold disconnect
    simp [hp, Diagram.setPins, Diagram.setCh, Diagram.clearCh, hP, he]
  · unfold disconnect
    simp [hp, Diagram.setPins, Diagram.setCh, Diagram.clearCh, hP, he, Function.update_apply,
      Ne.symm hpq]

/-- C4 at the example: A is disconnected from the channel joining A and B. -/
theorem disconnect_two_pin_channel_witness :
    0 ∉ (disconnect demoAB 0).Channels ∧ ((disconnect demoAB 0).pins 1).ch = none ∧
      ((disconnect demoAB 0).pins 0).ch = none :=
  disconnect_two_pin_channel demoAB 0 1 0 (by decide) (by decide) (by decide) (by decide)
    (by decide)

/-- C8: for a pin `p` attached to channel `c` (`p.ch == c`, `p` in `c.Pins`),
`p.connectTo(c)`, and `p.connectTo(q)` for any pin `q` with `q.ch == c`,
leave the whole diagram as it was, whatever they return: the pin set of `c`
(a set, so `p` is in it once), `p.ch`, every other pin, every other channel
and the registry. -/
theorem connectTo_attached_noop (s : Diagram) (p : PinRef) (c : ChanRef)
    (hp : (s.pins p).ch = some c) (hm : p ∈ (s.chans c).Pins) :
    (connectTo s p (.chan c)).1 = s ∧
      ∀ q, (s.pins q).ch = some c → (connectTo s p (.pin q)).1 = s := by
  have hd : detachUnless s p (some c) = s := detachUnless_of_attached s p _ hp
  have hchan : (connectToChannel s p c).1 = s := by
    cases h : (connectToChannel s p c).2 with
    | none =>
      rw [connectToChannel_ok s p c h, hd, Finset.insert_eq_of_mem hm, setCh_self s p _ hp,
        setPins_self s c _ rfl]
    | some e => rw [connectToChannel_err s p c (by simp [h]), hd]
  refine ⟨hchan, fun q hq => ?_⟩
  have hd2 : detachUnless s p (s.pins q).ch = s := by rw [hq]; exact hd
  simp only [connectTo]
  rcases connectToPin_cases s p q with ⟨_, h⟩ | ⟨c2, h1, h⟩ | ⟨h1, _⟩
  · rw [h, hd2]
  · rw [hd2, hq] at h1
    rw [h, hd2, ← Option.some.inj h1]
    exact hchan
  · rw [hd2, hq] at h1
    exact absurd h1 (by simp)

/-- C8 at the example: A, on channel 0 with B and D, is connected to channel 0
again, and to B. -/
theorem connectTo_attached_noop_witness :
    (connectTo demoABD 0 (.chan 0)).1 = demoABD ∧ (connectTo demoABD 0 (.pin 1)).1 = demoABD :=
  have h := connectTo_attached_noop demoABD 0 0 (by decide) (by decide)
  ⟨h.1, h.2 1 (by decide)⟩

/-- When `connectTo` accepts a target other than `p` itself, `p` ends on the
channel of the target. -/
theorem connectTo_ok_attached (s : Diagram) (p : PinRef) (q : Point)
    (hq : q ≠ .pin p) (h : (connectTo s p q).2 = none) :
    ∃ c, ((connectTo s p q).1.pins p).ch = some c ∧ channelOf (connectTo s p q).1 q = some c := by
  cases q with
  | chan c =>
    refine ⟨c, ?_, rfl⟩
    simp only [connectTo] at h ⊢
    rw [connectToChannel_ok s p c h]
    simp [Diagram.setPins, Diagram.setCh]
  | pin q =>
    have hne : q ≠ p := fun e => hq (by rw [e])
    simp only [connectTo, channelOf] at h ⊢
    rcases connectToPin_cases s p q with ⟨_, e⟩ | ⟨c, hc, e⟩ | ⟨_, e | e | ⟨_, e⟩⟩
    · rw [e] at h
      exact absurd h (by simp)
    · rw [e] at h ⊢
      refine ⟨c, ?_, ?_⟩
      · rw [connectToChannel_ok _ p c h]
        simp [Diagram.setPins, Diagram.setCh]
      · rw [connectToChannel_ok _ p c h, detachUnless_twice s p q c hc]
        simp [Diagram.setPins, Diagram.setCh, Function.update_apply, hne, hc]
    · rw [e] at h
      exact absurd h (by simp)
    · rw [e] at h
      exact absurd h (by simp)
    · rw [e]
      refine ⟨(detachUnless s p (s.pins q).ch).next, ?_, ?_⟩
      · simp [attachNew, Diagram.setCh, Function.update_apply, Ne.symm hne]
      · simp [attachNew, Diagram.setCh]

/-- C10: after `p.drag` with nearest point `q` at squared distance `d`: if `q`
is `p` itself, or `d >= snapQuad`, or `p.connectTo(q)` returns an error, then
`p.ch` is `nil`; otherwise `p.ch` is not `nil` and is the channel of `q` (`q`
itself when `q` is a channel). -/
theorem drag_attachment (s : Diagram) (p : PinRef) (d snapQuad : ℚ) (q : Point) :
    ((q = .pin p ∨ d ≥ snapQuad ∨ (connectTo s p q).2 ≠ none) →
        ((drag s p d snapQuad q).pins p).ch = none) ∧
      (¬ (q = .pin p ∨ d ≥ snapQuad ∨ (connectTo s p q).2 ≠ none) →
        ∃ c, ((drag s p d snapQuad q).pins p).ch = some c ∧
          channelOf (drag s p d snapQuad q) q = some c) := by
  unfold drag
  by_cases h1 : q = .pin p ∨ d ≥ snapQuad
  · rw [if_pos h1]
    refine ⟨fun _ => noSnap_ch_self s p, fun h => absurd ?_ h⟩
    rcases h1 with h1 | h1
    · exact Or.inl h1
    · exact Or.inr (Or.inl h1)
  · rw [if_neg h1]
    push_neg at h1
    cases hr : connectTo s p q with
    | mk s1 e =>
      cases e with
      | some e =>
        refine ⟨fun _ => noSnap_ch_self s1 p, fun h => absurd ?_ h⟩
        exact Or.inr (Or.inr (by simp))
      | none =>
        have hok := connectTo_ok_attached s p q h1.1 (by rw [hr])
        rw [hr] at hok
        refine ⟨fun h => ?_, fun _ => hok⟩
        rcases h with h | h | h
        · exact absurd h h1.1
        · exact absurd h (not_le.mpr h1.2)
        · exact absurd rfl h

/-- C10 at the example: D is dragged with nothing within reach (`d = 9`,
`snapQuad = 4`) and ends unattached; D is dragged next to B (`d = 1`), which
sits on channel 0, and ends on the channel of B. -/
theorem drag_attachment_witness :
    ((drag demoABD 2 9 4 (.pin 1)).pins 2).ch = none ∧
      ∃ c, ((drag demoAB 2 1 4 (.pin 1)).pins 2).ch = some c ∧
        channelOf (drag demoAB 2 1 4 (.pin 1)) (.pin 1) = some c :=
  ⟨(drag_attachment demoABD 2 9 4 (.pin 1)).1 (by decide),
    (drag_attachment demoAB 2 1 4 (.pin 1)).2 (by decide)⟩

/-- C5: the state reached by `A.connectTo(B)`, `D.connectTo(B)`,
`B.disconnect()` from the example (a graph with no channels) has channel 0 in
the registry with pin set `{A, D}`, two outputs and no input. -/
theorem disconnect_leaves_one_direction :
    NoChannels demo ∧
      0 ∈ (runCalls demo [.connectTo 0 (.pin 1), .connectTo 2 (.pin 1), .disconnect 1]).Channels ∧
      ((runCalls demo [.connectTo 0 (.pin 1), .connectTo 2 (.pin 1), .disconnect 1]).chans
        0).Pins = {0, 2} ∧
      ¬ ∃ r ∈ ((runCalls demo [.connectTo 0 (.pin 1), .connectTo 2 (.pin 1),
          .disconnect 1]).chans 0).Pins,
        ((runCalls demo [.connectTo 0 (.pin 1), .connectTo 2 (.pin 1), .disconnect 1]).pins
          r).input = true :=
  ⟨noChannels_demo, by decide, by decide, by decide⟩

/-- C6: the state reached by `A.connectTo(B)`, `F.connectTo(A)` from the example
(a graph with no channels; both calls return `nil`) has channel 0 in the
registry holding the distinct pins A and F, both of node 1. -/
theorem channel_joins_pins_of_one_node :
    NoChannels demo ∧
      (connectTo demo 0 (.pin 1)).2 = none ∧
      (connectTo (connectTo demo 0 (.pin 1)).1 4 (.pin 0)).2 = none ∧
      0 ∈ (runCalls demo [.connectTo 0 (.pin 1), .connectTo 4 (.pin 0)]).Channels ∧
      (0 : PinRef) ∈ ((runCalls demo [.connectTo 0 (.pin 1), .connectTo 4 (.pin 0)]).chans
        0).Pins ∧
      (4 : PinRef) ∈ ((runCalls demo [.connectTo 0 (.pin 1), .connectTo 4 (.pin 0)]).chans
        0).Pins ∧
      ((runCalls demo [.connectTo 0 (.pin 1), .connectTo 4 (.pin 0)]).pins 0).node =
        ((runCalls demo [.connectTo 0 (.pin 1), .connectTo 4 (.pin 0)]).pins 4).node :=
  ⟨noChannels_demo, by decide, by decide, by decide, by decide, by decide, by decide⟩

/-- C7: in every state reached from a graph with no channels by `connectTo`
(on a pin or on a registered channel) and `disconnect`, every channel of the
registry has at least two pins. -/
theorem reachable_two_pins (s0 s : Diagram) (h0 : NoChannels s0) (hr : Reachable s0 s) :
    ∀ c ∈ s.Channels, 2 ≤ (s.chans c).Pins.card :=
  (wf_of_reachable h0 hr).two_pins

/-- C7 at the example: after `A.connectTo(B)`, `D.connectTo(B)`,
`A.disconnect()`, channel 0 is registered and has two pins. -/
theorem reachable_two_pins_witness :
    0 ∈ (disconnect demoABD 0).Channels ∧ 2 ≤ ((disconnect demoABD 0).chans 0).Pins.card :=
  ⟨by decide,
    reachable_two_pins demo (disconnect demoABD 0) noChannels_demo
      (.disconnect 0 (.connectPin 2 1 (.connectPin 0 1 .start))) 0 (by decide)⟩

/-- C9: when `p.connectTo(t)` returns an error, the resulting state is the
starting state if `p` was unattached or attached to the channel the target
stands for, and otherwise the state after `p.disconnect()` alone; and in
every state the program reaches from a graph with no channels, the target and
its channel are as before. -/
theorem connectTo_rejected (s : Diagram) (p : PinRef) (t : Point)
    (herr : (connectTo s p t).2 ≠ none) :
    (connectTo s p t).1 =
        (if (s.pins p).ch = none ∨ (s.pins p).ch = channelOf s t then s else disconnect s p) ∧
      ∀ s0, NoChannels s0 → Reachable s0 s → Untouched s (connectTo s p t).1 t := by
  have e := connectTo_err s p t herr
  refine ⟨?_, fun s0 h0 hr => ?_⟩
  · rw [e]
    unfold detachUnless
    by_cases h1 : (s.pins p).ch = none
    · simp [h1]
    · by_cases h2 : (s.pins p).ch = channelOf s t
      · simp [h2]
      · simp [h1, h2]
  · rw [e]
    exact untouched_detachUnless (wf_of_reachable h0 hr) p t

/-- C9 at the example: A, on channel 0 with B and D, is connected to E of
type "string"; the call is rejected, A has been disconnected, and E is as it
was. -/
theorem connectTo_rejected_witness :
    (connectTo demoABD 0 (.pin 3)).2 ≠ none ∧
      (connectTo demoABD 0 (.pin 3)).1 = disconnect demoABD 0 ∧
      (connectTo demoABD 0 (.pin 3)).1.pins 3 = demoABD.pins 3 :=
  have h := connectTo_rejected demoABD 0 (.pin 3) (by decide)
  ⟨by decide, h.1.trans (if_neg (by decide)),
    (h.2 demo noChannels_demo (.connectPin 2 1 (.connectPin 0 1 .start))).1⟩

/-- The scenario of the spec (section 8) on the example: A connects to B and
channel 0 is `{A, B}`; D joins and it is `{A, B, D}`; E of type "string" is
rejected and the channel is unchanged; A is disconnected and `{B, D}` stays;
D is disconnected, the channel is dissolved and B is detached. -/
theorem spec_scenario :
    (connectTo demo 0 (.pin 1)).2 = none ∧
      (demoAB.chans 0).Pins = {0, 1} ∧
      (connectTo demoAB 2 (.chan 0)).2 = none ∧
      (demoABD.chans 0).Pins = {0, 1, 2} ∧
      (connectTo demoABD 3 (.chan 0)).2 = some (.mismatchingTypes "string" "int") ∧
      ((connectTo demoABD 3 (.chan 0)).1.chans 0).Pins = {0, 1, 2} ∧
      ((disconnect demoABD 0).chans 0).Pins = {1, 2} ∧
      0 ∈ (disconnect demoABD 0).Channels ∧
      (disconnect (disconnect demoABD 0) 2).Channels = ∅ ∧
      ((disconnect (disconnect demoABD 0) 2).pins 1).ch = none := by
  refine ⟨?_, ?_, ?_, ?_, ?_, ?_, ?_, ?_, ?_, ?_⟩ <;> decide

end ShenzhenGo
